import Mathlib

/-!
Verification of the `cavemap` Go package (cavemap.go) against its
natural-language specification.

The development is a shallow embedding of the package:

* Go `float64` values are modelled as `ℚ`.  All numeric code in the package
  except `advLonLat` is plain arithmetic and comparisons, which `ℚ` models
  exactly; `advLonLat` (spherical trigonometry) is not representable and is
  abstracted as an explicit function parameter `adv` where needed, so the
  theorems about `PropagateLocation` hold for, in particular, the real
  geodesic function.
* The Go map `m.DB : map[int]*Station` is modelled as a `List Station`; the
  list order models the (runtime chosen) iteration order of one `range` pass
  over the map.  Two calls observing different iteration orders are modelled
  by two permutations of the same list.
* A Go runtime panic (index out of range) is modelled by the value `none` of
  an `Option` result.
* `strconv.ParseFloat` is modelled on its decimal fragment
  (sign, digits, fraction, exponent); the special forms `Inf`/`NaN`/hex
  floats and overflow behaviour are not modelled — none of the surveyed
  inputs use them.
* `sort.Sort` is an unspecified comparison sort; it is modelled by insertion
  sort with the same comparator.  On inputs where the comparator is a strict
  total order the sorted result is unique, so the choice is immaterial there.
-/

namespace Cavemap

/-! ### Characters and strings (Go `strings` / `strconv` fragments) -/

/-- Go `strings.Split(s, sep)` for a one-character separator, on `List Char`.
`splitOnChar sep ""` is `[""]`, as in Go. -/
def splitOnChar (sep : Char) : List Char → List (List Char)
  | [] => [[]]
  | c :: rest =>
    let r := splitOnChar sep rest
    if c = sep then [] :: r
    else
      match r with
      | [] => [[c]]
      | h :: t => (c :: h) :: t

def isDigitC (c : Char) : Bool := '0' ≤ c && c ≤ '9'

/-- Value of a digit string, most significant digit first. -/
def digitsToNat (l : List Char) : Nat := l.foldl (fun acc c => acc * 10 + (c.toNat - 48)) 0

/-- Go `strconv.ParseFloat` on the decimal fragment of its grammar:
optional sign, decimal digits with optional fractional part (at least one
digit overall), optional decimal exponent.  Returns `none` exactly when Go
returns a parse error.  (`Inf`, `NaN`, hex floats and overflow are outside
the modelled fragment; the parsed value is exact where float64 would round.) -/
def parseFloat (s : List Char) : Option ℚ :=
  let sgnRest : Int × List Char :=
    match s with
    | '+' :: r => (1, r)
    | '-' :: r => (-1, r)
    | r => (1, r)
  let sgn := sgnRest.1
  let rest := sgnRest.2
  let ip := rest.takeWhile isDigitC
  let rest1 := rest.drop ip.length
  let fpRest : List Char × List Char :=
    match rest1 with
    | '.' :: r => (r.takeWhile isDigitC, r.drop (r.takeWhile isDigitC).length)
    | r => ([], r)
  let fp := fpRest.1
  let rest2 := fpRest.2
  if ip.length + fp.length = 0 then none
  else
    let mant : Int := sgn * (digitsToNat (ip ++ fp) : Int)
    match rest2 with
    | [] => some (mkRat mant (10 ^ fp.length))
    | e :: r3 =>
      if e = 'e' ∨ e = 'E' then
        let esgnRest : Bool × List Char :=
          match r3 with
          | '+' :: r => (true, r)
          | '-' :: r => (false, r)
          | r => (true, r)
        let ed := esgnRest.2.takeWhile isDigitC
        if ed.length = 0 ∨ ed.length ≠ esgnRest.2.length then none
        else if esgnRest.1 then some (mkRat (mant * 10 ^ digitsToNat ed) (10 ^ fp.length))
        else some (mkRat mant (10 ^ (fp.length + digitsToNat ed)))
      else none

/-- Go byte-wise string comparison `a < b` (the inputs in this development are
ASCII, where byte order and scalar-value order agree). -/
def strLtB : List Char → List Char → Bool
  | [], [] => false
  | [], _ :: _ => true
  | _ :: _, [] => false
  | a :: as, b :: bs =>
    if a < b then true else if b < a then false else strLtB as bs

/-! ### Station data model -/

/-- `const ( START = iota; REAL )` -/
def START : Nat := 0

def REAL : Nat := 1

/-- The `Station` struct.  The Go field `Section` is called `sect` here
(`section` is reserved in Lean); float64 fields are `ℚ` (see the header). -/
structure Station where
  id : Int := 0
  name : String := ""
  fromId : Int := 0
  sect : String := ""
  type : Nat := 0
  len : ℚ := 0
  azi : ℚ := 0
  depth : ℚ := 0
  lon : ℚ := 0
  lat : ℚ := 0
  comment : String := ""
deriving Repr, DecidableEq, Inhabited

/-! ### Azimuth arithmetic -/

/-- `reverseAzimuth` from the source. -/
def reverseAzimuth (x : ℚ) : ℚ :=
  if x < 180 then x + 180 else x - 180

/-- Go's `int(x)` conversion on a float: truncation toward zero. -/
def ratTrunc (x : ℚ) : Int := x.num.tdiv (x.den : Int)

/-- `averageAzimuth` from the source; Go integer division `/` truncates
toward zero, hence `Int.tdiv`. -/
def averageAzimuth (x y : ℚ) : ℚ :=
  let xy := if x < y then (y, x) else (x, y)
  let x := xy.1
  let y := xy.2
  if (ratTrunc x).tdiv 90 = 3 ∧ (ratTrunc y).tdiv 90 = 0 then
    let a := x + (360 - x + y) / 2
    if a ≥ 360 then a - 360 else a
  else x - (x - y) / 2

/-! ### ParseSurvey -/

/-- Parse errors of `ParseSurvey`.  The Go code reports them as
`fmt.Errorf("line %v parsing %s: %s", n+1, msg, err)` values; the model keeps
the line number and the role string (`"longitute"`, `"azimuth"`, ...). -/
inductive PErr where
  | malformed (lineNo : Nat) (role : String)
  | fieldCount (lineNo : Nat) (nfield : Nat)
deriving Repr, DecidableEq

/-- The parser's loop state: accumulated stations, start name, `label` set by
the `auto` directive, and the `reverse` flag. -/
structure PState where
  srv : List Station := []
  start : String := "START"
  label : String := ""
  reverse : Bool := false
deriving Repr, DecidableEq, Inhabited

/-- The statistics loop of the normalization pass: `hasempty`, `hascomment`,
and `last`, the index of the last non-empty field (`-1` if none). -/
def fieldStats (field : List (List Char)) : Bool × Bool × Int :=
  field.enum.foldl
    (fun st p =>
      if p.2 = [] then (true, st.2.1, st.2.2)
      else
        let hc := if p.1 ≠ 0 ∧ p.2 ≠ ['-'] ∧ (parseFloat p.2).isNone then true else st.2.1
        (st.1, hc, (p.1 : Int)))
    (false, false, -1)

/-- The field-count normalization pass.  Returns the adjusted field list and
`nfield`; returns `none` when the Go code executes `field[last] = ""` with
`last` one past the end of the slice — an index-out-of-range panic. -/
def normalizeFields (field : List (List Char)) : Option (List (List Char) × Nat) :=
  let st := fieldStats field
  let hasempty := st.1
  let hascomment := st.2.1
  let last := st.2.2
  if hasempty ∧ last ≠ -1 then
    let l := last.toNat
    if (parseFloat (field.getD l [])).isSome then
      if l + 1 < field.length then some (field.set (l + 1) [], l + 2)
      else none
    else some (field, l + 1)
  else if ¬hascomment ∧ 4 ≤ field.length then some (field ++ [[]], field.length + 1)
  else some (field, field.length)

/-- The in-place swap `field[i], field[j] = field[j], field[i]`. -/
def swapIdx (l : List (List Char)) (i j : Nat) : List (List Char) :=
  match l.get? i, l.get? j with
  | some a, some b => (l.set i b).set j a
  | _, _ => l

/-- One iteration of the `ParseSurvey` line loop.  `none` models a panic,
`.error` a returned parse error, `.ok` the updated loop state. -/
def processLine (pfx : String) (n : Nat) (line : List Char) (st : PState) :
    Option (Except PErr PState) :=
  if line = [] then some (.ok st)
  else if line.head? = some '#' then some (.ok st)
  else
    match normalizeFields (splitOnChar '\t' line) with
    | none => none
    | some (field, nfield) =>
      match nfield with
      | 1 =>
        let f0 := field.getD 0 []
        if f0 = "auto".data ∧ pfx ≠ "" then some (.ok { st with label := pfx })
        else if f0 = "reverse".data then some (.ok { st with reverse := true })
        else some (.ok { st with start := ⟨f0⟩ })
      | 3 =>
        match parseFloat (field.getD 1 []) with
        | none => some (.error (.malformed (n + 1) "longitute"))
        | some lon =>
          match parseFloat (field.getD 2 []) with
          | none => some (.error (.malformed (n + 1) "latitude"))
          | some lat =>
            some (.ok { st with srv := st.srv ++
              [{ name := st.label ++ ⟨field.getD 0 []⟩, type := START, lon := lon, lat := lat }] })
      | 5 =>
        let field := if st.reverse then swapIdx (swapIdx field 1 2) 2 3 else field
        match parseFloat (field.getD 1 []) with
        | none => some (.error (.malformed (n + 1) "azimuth"))
        | some azi =>
          match parseFloat (field.getD 2 []) with
          | none => some (.error (.malformed (n + 1) "length"))
          | some len =>
            match parseFloat (field.getD 3 []) with
            | none => some (.error (.malformed (n + 1) "depth"))
            | some depth =>
              some (.ok { st with srv := st.srv ++
                [{ name := st.label ++ ⟨field.getD 0 []⟩, type := REAL,
                   azi := azi, len := len, depth := depth, comment := ⟨field.getD 4 []⟩ }] })
      | 6 =>
        let field := if st.reverse then swapIdx (swapIdx (swapIdx field 1 2) 2 3) 3 4 else field
        match parseFloat (field.getD 1 []) with
        | none => some (.error (.malformed (n + 1) "azimuth1"))
        | some azi1 =>
          match parseFloat (field.getD 2 []) with
          | none => some (.error (.malformed (n + 1) "length"))
          | some len =>
            let aziRes : Except PErr ℚ :=
              if field.getD 3 [] ≠ ['-'] then
                match parseFloat (field.getD 3 []) with
                | none => .error (.malformed (n + 1) "azimuth2")
                | some azi2 => .ok (averageAzimuth azi1 azi2)
              else .ok azi1
            match aziRes with
            | .error e => some (.error e)
            | .ok azi =>
              match parseFloat (field.getD 4 []) with
              | none => some (.error (.malformed (n + 1) "depth"))
              | some depth =>
                some (.ok { st with srv := st.srv ++
                  [{ name := st.label ++ ⟨field.getD 0 []⟩, type := REAL,
                     azi := azi, len := len, depth := depth, comment := ⟨field.getD 5 []⟩ }] })
      | _ => some (.error (.fieldCount (n + 1) field.length))

/-- The `ParseSurvey` line loop over the numbered split lines.  On a parse
error the Go code returns the stations and start name accumulated so far
together with the error, skipping the final `reverse` block. -/
def parseLines (pfx : String) : List (Nat × List Char) → PState → Option (PState × Option PErr)
  | [], st => some (st, none)
  | (n, line) :: rest, st =>
    match processLine pfx n line st with
    | none => none
    | some (.error e) => some (st, some e)
    | some (.ok st1) => parseLines pfx rest st1

/-- The renumbering loop of the final `reverse` block:
`srv[i].Name = prefix + (i+1); srv[i].Azi = reverseAzimuth(srv[i].Azi)`. -/
def renumber (pfx : String) : Nat → List Station → List Station
  | _, [] => []
  | i, s :: rest =>
    { s with name := pfx ++ toString (i + 1), azi := reverseAzimuth s.azi } ::
      renumber pfx (i + 1) rest

/-- The final `reverse` block of `ParseSurvey`. -/
def finalizeSurvey (pfx : String) (st : PState) : List Station :=
  if st.reverse then
    let r := st.srv.reverse
    if pfx ≠ "" then renumber pfx 0 r else r
  else st.srv

/-- `ParseSurvey`.  `none` models a runtime panic; otherwise the result is
the station list, the start name, and `none`/`some e` for success/parse
error — all three returned to the caller as in Go. -/
def parseSurvey (text : List Char) (pfx : String) :
    Option (List Station × String × Option PErr) :=
  match parseLines pfx (splitOnChar '\n' text).enum {} with
  | none => none
  | some (st, some e) => some (st.srv, st.start, some e)
  | some (st, none) => some (finalizeSurvey pfx st, st.start, none)

/-! ### The station store (`Map`)

The store `m.DB : map[int]*Station` is a `List Station`; the list order is
the iteration order the runtime chooses for a `range` over the map during
the modelled call.  Map insertion of a fresh key is modelled by appending. -/

/-- `AddLocalSurvey`: inserts stations one at a time, stopping with a
DuplicateId error at the first station whose id is already present; the
stations inserted before the failure stay in the store, as in Go. -/
def addLocalSurvey (db : List Station) : List Station → List Station × Option String
  | [] => (db, none)
  | s :: rest =>
    if db.any (fun t => t.id == s.id) then
      (db, some ("station " ++ s.name ++ " already in DB with id " ++ toString s.id))
    else addLocalSurvey (db ++ [s]) rest

/-- `getStationId`: linear scan in iteration order. -/
def getStationId (db : List Station) (name : String) : Int × Bool :=
  match db.find? (fun s => s.name == name) with
  | some s => (s.id, true)
  | none => (-1, false)

/-- `ValidSurvey`: fails with a duplicate-name error on the first survey
station whose non-`"START"` name is already in the store.  The function only
reads the store. -/
def validSurvey (db : List Station) : List Station → Option String
  | [] => none
  | s :: rest =>
    if s.name ≠ "START" ∧ db.any (fun t => s.name == t.name) then
      some ("duplicate name " ++ s.name)
    else validSurvey db rest

/-- The `maxid` loop of `AddSurvey`: fold starting at `0`. -/
def maxIdFold (db : List Station) : Int :=
  db.foldl (fun m s => if s.id > m then s.id else m) 0

/-- The id-assignment loop of `AddSurvey`: each station gets `maxid+1`, its
`fromId` the previous station's new id (the first one the resolved start). -/
def assignIds : Int → Int → List Station → List Station
  | _, _, [] => []
  | fromId, maxid, s :: rest =>
    { s with id := maxid + 1, fromId := fromId } :: assignIds (maxid + 1) (maxid + 1) rest

/-- The insertion loop of `AddSurvey` (defensive DuplicateId check).  The Go
error text prints the station via its `String()` method; the model keeps a
fixed message since the theorems show the branch is not taken. -/
def insertLoopAS (db : List Station) : List Station → List Station × Option String
  | [] => (db, none)
  | s :: rest =>
    if db.any (fun t => t.id == s.id) then (db, some "already in DB")
    else insertLoopAS (db ++ [s]) rest

/-- `AddSurvey`. -/
def addSurvey (db : List Station) (srv : List Station) (start : String) :
    List Station × Option String :=
  if srv.length = 0 then (db, some "can't add empty survey")
  else
    let res := getStationId db start
    if start ≠ "START" ∧ (res.2 = false ∨ res.1 = -1) then
      (db, some ("unknow station " ++ start))
    else
      let fromId : Int := if start = "START" then -1 else res.1
      insertLoopAS db (assignIds fromId (maxIdFold db) srv)

/-! ### Tree walk and location propagation

`forEachStation` recurses through the parent/child relation; on a cyclic
store the Go code never terminates, which the model renders as `none` when
the `fuel` bound is exhausted.  `advLonLat` (float spherical trigonometry)
is abstracted as the parameter `adv`. -/

/-- Ids of the stations the walk at `pid` iterates over (`s.FromId == Id`),
in store iteration order.  `fromId` and `id` are never mutated, so this set
is stable during a walk. -/
def childIds (db : List Station) (pid : Int) : List Int :=
  (db.filter (fun s => s.fromId == pid)).map (fun s => s.id)

/-- The body of `updateStation` inside `PropagateLocation`: if the child
station still has the unset `(0,0)` coordinate, set it from its parent via
`adv`; otherwise leave the store unchanged. -/
def stepUpdate (adv : ℚ → ℚ → ℚ → ℚ → ℚ × ℚ) (db : List Station) (pid cid : Int) :
    List Station :=
  match db.find? (fun t => t.id == cid), db.find? (fun t => t.id == pid) with
  | some c, some f =>
    if c.lon == 0 && c.lat == 0 then
      let ll := adv f.lon f.lat c.azi c.len
      db.map (fun t => if t.id == cid then { t with lon := ll.1, lat := ll.2 } else t)
    else db
  | _, _ => db

/-- `forEachStation` specialised to `updateStation`: the recursive walk of
`PropagateLocation`, updating each visited child before recursing into it. -/
def walkP (adv : ℚ → ℚ → ℚ → ℚ → ℚ × ℚ) : Nat → List Station → Int → Option (List Station)
  | 0, _, _ => none
  | fuel + 1, db, pid =>
    (childIds db pid).foldl
      (fun acc cid =>
        match acc with
        | none => none
        | some cur => walkP adv fuel (stepUpdate adv cur pid cid) cid)
      (some db)

/-- The set (list) of child ids visited by the walk at `pid`, computed from
the structure only (ids and `fromId`s, which propagation never changes). -/
def reachIds : Nat → List Station → Int → Option (List Int)
  | 0, _, _ => none
  | fuel + 1, db, pid =>
    (childIds db pid).foldl
      (fun acc cid =>
        match acc with
        | none => none
        | some l =>
          match reachIds fuel db cid with
          | none => none
          | some l2 => some (l ++ cid :: l2))
      (some [])

/-- Ids of the anchor (`START`) stations, in store iteration order. -/
def anchorIds (db : List Station) : List Int :=
  (db.filter (fun s => s.type == START)).map (fun s => s.id)

/-- `PropagateLocation`: one walk per anchor station. -/
def propagateLocation (adv : ℚ → ℚ → ℚ → ℚ → ℚ × ℚ) (fuel : Nat) (db : List Station) :
    Option (List Station) :=
  (anchorIds db).foldl
    (fun acc aid =>
      match acc with
      | none => none
      | some cur => walkP adv fuel cur aid)
    (some db)

/-- All child ids visited by `PropagateLocation`'s walks, over all anchors. -/
def allReachIds (fuel : Nat) (db : List Station) : Option (List Int) :=
  (anchorIds db).foldl
    (fun acc aid =>
      match acc with
      | none => none
      | some l =>
        match reachIds fuel db aid with
        | none => none
        | some l2 => some (l ++ l2))
    (some [])

/-! ### The exporter's name comparator (`byName.Less`) and sort -/

/-- The character class of the source regexp `[a-zA-z]` (note the Go code's
`A-z` range, which also covers the six ASCII characters between `Z` and
`a`). -/
def letterish (c : Char) : Bool := ('a' ≤ c && c ≤ 'z') || ('A' ≤ c && c ≤ 'z')

/-- `regexp "[a-zA-z]+[0-9]+"` matches a string iff some letterish character
is immediately followed by a digit. -/
def hasLetterDigit : List Char → Bool
  | [] => false
  | [_] => false
  | a :: b :: r => (letterish a && isDigitC b) || hasLetterDigit (b :: r)

/-- `re.Find` for the pattern `p+`: the leftmost maximal run of characters
satisfying `p` (empty iff there is no match, i.e. Go's `nil`). -/
def firstRun (p : Char → Bool) : List Char → List Char
  | [] => []
  | c :: r => if p c then c :: r.takeWhile p else firstRun p r

/-- `byName.Less` from the source.  `ParseFloat` on a non-empty digit run
always succeeds, so the numeric branch compares the runs' values (exact
here; float64 would round runs longer than 17 digits). -/
def byNameLess (a b : String) : Bool :=
  let ret := strLtB a.data b.data
  if a == "START" then true
  else if b == "START" then false
  else if !hasLetterDigit a.data || !hasLetterDigit b.data then ret
  else
    let p1 := firstRun letterish a.data
    let p2 := firstRun letterish b.data
    if p1 = [] ∨ p2 = [] then ret
    else if p1 ≠ p2 then ret
    else
      let n1 := firstRun isDigitC a.data
      let n2 := firstRun isDigitC b.data
      if n1 = [] ∨ n2 = [] then ret
      else decide (digitsToNat n1 < digitsToNat n2)

/-- Insertion of one element for `sortBy`. -/
def insertB (lt : String → String → Bool) (x : String) : List String → List String
  | [] => [x]
  | y :: l => if lt x y then x :: y :: l else y :: insertB lt x l

/-- The model of `sort.Sort(byName(name))`: an insertion sort with the same
comparator (`sort.Sort` is an unspecified comparison sort; where the
comparator strictly totally orders the elements the result is unique). -/
def sortBy (lt : String → String → Bool) : List String → List String
  | [] => []
  | x :: l => insertB lt x (sortBy lt l)

/-! ### The GeoJSON exporter (`Marshal`) -/

/-- GeoJSON features as `Marshal` builds them: point features with
`name`/`depth`/`comment` properties, and per-anchor `GeometryCollection`s of
two-point `LineString` segments with a `name` property.  Feature order in
this list is the order in the serialized `FeatureCollection`; the JSON
renderer itself is injective on this data, so equality/inequality of
serialized texts is decided here. -/
inductive Feature where
  | point (lon lat : ℚ) (name : String) (depth : ℚ) (comment : String)
  | lineColl (segs : List (List (ℚ × ℚ))) (name : String)
deriving Repr, DecidableEq

def Feature.isPoint : Feature → Bool
  | .point .. => true
  | .lineColl .. => false

/-- The `nameToStation` map built by `Marshal`: later `range` entries
overwrite earlier ones, so a name maps to its last carrier in iteration
order. -/
def nameToStation (db : List Station) (n : String) : Option Station :=
  (db.filter (fun s => s.name == n)).getLast?

/-- The point-feature loop of `Marshal`: names sorted by `byName.Less`, each
looked up through `nameToStation`.  The lookup cannot miss (every sorted
name came from the store), so the `none` branch is dead; Go would
dereference a nil pointer there. -/
def marshalPoints (db : List Station) : List Feature :=
  (sortBy byNameLess (db.map (fun s => s.name))).map
    (fun n =>
      match nameToStation db n with
      | some s => .point s.lon s.lat n s.depth s.comment
      | none => .point 0 0 n 0 "")

/-- `forEachStation` specialised to `appendStation`: the read-only walk
collecting `(parent, child)` pairs in visit order.  The parent lookup
`m.DB[s.FromId]` cannot miss (the walked id is an existing station's id). -/
def walkPairs : Nat → List Station → Int → List (Station × Station)
  | 0, _, _ => []
  | fuel + 1, db, pid =>
    (db.filter (fun s => s.fromId == pid)).flatMap
      (fun s =>
        ((db.find? (fun t => t.id == pid)).getD default, s) :: walkPairs fuel db s.id)

/-- The per-anchor line-feature loop of `Marshal`: each visited pair
contributes one two-point `LineString`; the anchor's name is the feature's
`name` property.  Fuel `db.length + 1` covers every acyclic store. -/
def marshalLines (db : List Station) : List Feature :=
  (db.filter (fun s => s.type == START)).map
    (fun s =>
      let pairs := walkPairs (db.length + 1) db s.id
      Feature.lineColl
        (pairs.map (fun fs => [(fs.1.lon, fs.1.lat), (fs.2.lon, fs.2.lat)])) s.name)

/-- `Marshal`: the feature list of the produced `FeatureCollection` — all
point features in sorted-name order, then one line feature per anchor in
iteration order.  (The reachability sanity check only prints diagnostics and
does not affect the output.) -/
def marshal (db : List Station) : List Feature :=
  marshalPoints db ++ marshalLines db

/-! ### Spec-side definitions (for refinement-style claims) -/

/-- Modelled from the spec's words (claim C6): the bisector of two bearings
"computed through the 360°/0° boundary rather than the naive midpoint",
reduced into `[0,360)`. -/
def wrapBisector (a b : ℚ) : ℚ :=
  let m := (max a b + min a b + 360) / 2
  if 360 ≤ m then m - 360 else m

/-! ### Shared helper lemmas -/

theorem insertB_perm (lt : String → String → Bool) (x : String) :
    ∀ l : List String, (insertB lt x l).Perm (x :: l)
  | [] => List.Perm.refl _
  | y :: l => by
    unfold insertB
    split
    · exact List.Perm.refl _
    · exact ((insertB_perm lt x l).cons y).trans (List.Perm.swap x y l)

theorem sortBy_perm (lt : String → String → Bool) :
    ∀ l : List String, (sortBy lt l).Perm l
  | [] => List.Perm.refl _
  | x :: l =>
    (insertB_perm lt x (sortBy lt l)).trans ((sortBy_perm lt l).cons x)

/-! ### Concrete stores used by counterexamples and witnesses -/

/-- Two anchor stations that share the sentinel name `"START"` but sit at
different coordinates. -/
def exStart1 : Station := { id := 1, name := "START", fromId := -1, type := START, lon := 1, lat := 1 }

def exStart2 : Station := { id := 2, name := "START", fromId := -1, type := START, lon := 2, lat := 2 }

/-- Two anchor stations with distinct names. -/
def exAnchA : Station := { id := 1, name := "A1", fromId := -1, type := START, lon := 1, lat := 1 }

def exAnchB : Station := { id := 2, name := "B1", fromId := -1, type := START, lon := 2, lat := 2 }

/-! ### Claims -/

/-- C2 (code_bug): the spec says every failure of `ParseSurvey` is reported
to the caller as a value, never as fatal process termination, and the claim
asserts in particular that the trailing-empty-field normalization pass never
writes out of bounds.  On the line `"A\t\t5"` — an empty interior field with
the last non-empty field numeric — the Go code executes `field[3] = ""` on a
3-element slice, an index-out-of-range panic; the model returns the panic
marker `none` instead of a survey or an error value. -/
theorem c2_normalization_panics : parseSurvey "A\t\t5".data "" = none := by decide

/-- C8: sorting `["CsFree2","START","CsFree1","CsFree10"]` with the
exporter's comparator `byName.Less` puts the sentinel `"START"` first and
orders the same-letter-prefix names by numeric suffix, not
lexicographically. -/
theorem c8_sort_order :
    sortBy byNameLess ["CsFree2", "START", "CsFree1", "CsFree10"] =
      ["START", "CsFree1", "CsFree2", "CsFree10"] := by decide

/-- C1 counterexample: with a `reverse` directive and the empty prefix,
`ParseSurvey` returns the station with the bearing it parsed (`5`), not
`reverseAzimuth` of it (`185`): the bearing replacement claimed for "every
prefix (including the empty prefix)" does not happen when the prefix is
empty. -/
theorem c1_counterexample :
    parseSurvey "reverse\nA\t10\t5\t2\tc".data "" =
      some ([{ name := "A", type := REAL, azi := 5, len := 2, depth := 10, comment := "c" }],
        "START", none) ∧
    reverseAzimuth 5 = 185 ∧ (5 : ℚ) ≠ 185 := by
  refine ⟨by decide, ?_, by norm_num⟩
  norm_num [reverseAzimuth]

/-- C3 counterexample: the same store contents enumerated in two different
map-iteration orders (a permuted store list) produce different `Marshal`
feature sequences — the two per-anchor line features swap places — so the
serialized texts of two calls are not always identical. -/
theorem c3_counterexample :
    List.Perm [exAnchA, exAnchB] [exAnchB, exAnchA] ∧
    marshal [exAnchA, exAnchB] ≠ marshal [exAnchB, exAnchA] := by decide

/-- C4 counterexample: in a store with two anchors both named `"START"` at
`(1,1)` and `(2,2)`, both point features of `Marshal` carry the coordinates
of the station that won the `nameToStation` map entry — `(2,2)` — so no
point feature carries the first station's own `(1,1)` coordinate, contrary
to the claim that each station's feature carries its own
longitude/latitude. -/
theorem c4_counterexample :
    (marshal [exStart1, exStart2]).filter Feature.isPoint =
      [.point 2 2 "START" 0 "", .point 2 2 "START" 0 ""] ∧
    [exStart1, exStart2].map (fun s => (s.lon, s.lat)) = [(1, 1), (2, 2)] ∧
    ¬(Feature.point 1 1 "START" 0 "" ∈ (marshal [exStart1, exStart2]).filter Feature.isPoint) := by
  decide

/-- C9: whenever a candidate survey contains a station whose name is not
`"START"` and already names a station in the store, `ValidSurvey` returns a
duplicate-name error (for some such offending name).  `ValidSurvey` only
reads the store — in the model its type returns no store at all, matching
the Go code, which performs no write — so the store is exactly unchanged. -/
theorem c9_validSurvey_duplicate (db srv : List Station) (s : Station)
    (hs : s ∈ srv) (hn : s.name ≠ "START")
    (hdb : ∃ t ∈ db, t.name = s.name) :
    ∃ nm, validSurvey db srv = some ("duplicate name " ++ nm) ∧
      nm ≠ "START" ∧ (∃ u ∈ srv, u.name = nm) ∧ ∃ t ∈ db, t.name = nm := by
  induction srv with
  | nil => cases hs
  | cons a rest ih =>
    by_cases hc : a.name ≠ "START" ∧ (db.any (fun t => a.name == t.name)) = true
    · refine ⟨a.name, ?_, hc.1, ⟨a, List.mem_cons_self a rest, rfl⟩, ?_⟩
      · simp only [validSurvey]
        rw [if_pos hc]
      · obtain ⟨t, ht, hbeq⟩ := List.any_eq_true.mp hc.2
        exact ⟨t, ht, (eq_of_beq hbeq).symm⟩
    · have hstep : validSurvey db (a :: rest) = validSurvey db rest := by
        simp only [validSurvey]
        rw [if_neg hc]
      rcases List.mem_cons.mp hs with h | h
      · subst h
        obtain ⟨t, ht, htn⟩ := hdb
        exact absurd ⟨hn, List.any_eq_true.mpr ⟨t, ht, beq_of_eq htn.symm⟩⟩ hc
      · obtain ⟨nm, h1, h2, ⟨u, hu, hu2⟩, h4⟩ := ih h
        exact ⟨nm, hstep ▸ h1, h2, ⟨u, List.mem_cons_of_mem a hu, hu2⟩, h4⟩

/-- C9 witness: a one-station survey whose name duplicates the store's
station `"A1"` is rejected with a duplicate-name error. -/
theorem c9_witness :
    ((⟨9, "A1", 0, "", 1, 0, 0, 0, 0, 0, ""⟩ : Station) ∈
        [(⟨9, "A1", 0, "", 1, 0, 0, 0, 0, 0, ""⟩ : Station)] ∧
      (⟨9, "A1", 0, "", 1, 0, 0, 0, 0, 0, ""⟩ : Station).name ≠ "START" ∧
      ∃ t ∈ [exAnchA], t.name = (⟨9, "A1", 0, "", 1, 0, 0, 0, 0, 0, ""⟩ : Station).name) ∧
    ∃ nm, validSurvey [exAnchA] [⟨9, "A1", 0, "", 1, 0, 0, 0, 0, 0, ""⟩] =
        some ("duplicate name " ++ nm) ∧
      nm ≠ "START" ∧
      (∃ u ∈ [(⟨9, "A1", 0, "", 1, 0, 0, 0, 0, 0, ""⟩ : Station)], u.name = nm) ∧
      ∃ t ∈ [exAnchA], t.name = nm :=
  ⟨⟨by decide, by decide, by decide⟩,
    c9_validSurvey_duplicate [exAnchA] [⟨9, "A1", 0, "", 1, 0, 0, 0, 0, 0, ""⟩]
      ⟨9, "A1", 0, "", 1, 0, 0, 0, 0, 0, ""⟩ (by decide) (by decide) (by decide)⟩

/-- C10: `AddLocalSurvey` is not atomic on error.  If index `k` holds the
first station of the survey whose id already exists — in the store or among
the survey's own earlier stations, which have been inserted by then — the
call returns the duplicate-id error and leaves the store equal to the old
store with exactly the stations at indices `0..k-1` appended. -/
theorem c10_addLocalSurvey_partial (db srv : List Station) (k : Nat)
    (hk : k < srv.length)
    (hdup : ((db ++ srv.take k).any (fun t => t.id == (srv.getD k default).id)) = true)
    (hfresh : ∀ j, j < k →
      ((db ++ srv.take j).any (fun t => t.id == (srv.getD j default).id)) = false) :
    addLocalSurvey db srv =
      (db ++ srv.take k,
        some ("station " ++ (srv.getD k default).name ++ " already in DB with id " ++
          toString (srv.getD k default).id)) := by
  induction srv generalizing db k with
  | nil => simp at hk
  | cons s rest ih =>
    cases k with
    | zero =>
      simp only [List.take_zero, List.append_nil, List.getD_cons_zero] at hdup ⊢
      simp only [addLocalSurvey]
      rw [if_pos hdup]
    | succ k2 =>
      have h0 := hfresh 0 (Nat.succ_pos k2)
      simp only [List.take_zero, List.append_nil, List.getD_cons_zero] at h0
      have hk2 : k2 < rest.length := Nat.lt_of_succ_lt_succ hk
      have hdup2 : (((db ++ [s]) ++ rest.take k2).any
          (fun t => t.id == (rest.getD k2 default).id)) = true := by
        simpa [List.append_assoc] using hdup
      have hfresh2 : ∀ j, j < k2 →
          (((db ++ [s]) ++ rest.take j).any
            (fun t => t.id == (rest.getD j default).id)) = false := by
        intro j hj
        have := hfresh (j + 1) (Nat.succ_lt_succ hj)
        simpa [List.append_assoc] using this
      have hrec := ih (db ++ [s]) k2 hk2 hdup2 hfresh2
      simp only [addLocalSurvey]
      rw [if_neg (by simp [h0])]
      rw [hrec]
      simp [List.append_assoc]

/-- C10 witness: inserting `[exAnchB, exStart2]` (both with id 2, the second
duplicating the first) into the store `[exAnchA]` inserts `exAnchB` and then
fails on index 1, leaving `exAnchB` in the store. -/
theorem c10_witness :
    (1 < ([exAnchB, exStart2] : List Station).length ∧
      ((([exAnchA] : List Station) ++ [exAnchB, exStart2].take 1).any
        (fun t => t.id == ([exAnchB, exStart2].getD 1 default).id)) = true ∧
      ∀ j, j < 1 →
        ((([exAnchA] : List Station) ++ [exAnchB, exStart2].take j).any
          (fun t => t.id == ([exAnchB, exStart2].getD j default).id)) = false) ∧
    addLocalSurvey [exAnchA] [exAnchB, exStart2] =
      ([exAnchA] ++ [exAnchB, exStart2].take 1,
        some ("station " ++ ([exAnchB, exStart2].getD 1 default).name ++
          " already in DB with id " ++ toString ([exAnchB, exStart2].getD 1 default).id)) :=
  ⟨⟨by decide, by decide, by decide⟩,
    c10_addLocalSurvey_partial [exAnchA] [exAnchB, exStart2] 1
      (by decide) (by decide) (by decide)⟩

/-! ### C6: averageAzimuth against the spec's wrap-around rule -/

theorem ratTrunc_eq_floor (x : ℚ) (hx : 0 ≤ x) : ratTrunc x = ⌊x⌋ := by
  unfold ratTrunc
  rw [Rat.floor_def, Int.tdiv_eq_ediv (Rat.num_nonneg.mpr hx) (by positivity)]

theorem ratTrunc_div90_three (x : ℚ) (h0 : 0 ≤ x) (h360 : x < 360) :
    (ratTrunc x).tdiv 90 = 3 ↔ 270 ≤ x := by
  rw [ratTrunc_eq_floor x h0]
  have hf0 : 0 ≤ ⌊x⌋ := Int.floor_nonneg.mpr h0
  have hf360 : ⌊x⌋ < 360 := Int.floor_lt.mpr (by exact_mod_cast h360)
  rw [Int.tdiv_eq_ediv hf0 (by norm_num)]
  constructor
  · intro h
    have : (270 : Int) ≤ ⌊x⌋ := by omega
    exact_mod_cast Int.le_floor.mp this
  · intro h
    have : (270 : Int) ≤ ⌊x⌋ := Int.le_floor.mpr (by exact_mod_cast h)
    omega

theorem ratTrunc_div90_zero (y : ℚ) (h0 : 0 ≤ y) :
    (ratTrunc y).tdiv 90 = 0 ↔ y < 90 := by
  rw [ratTrunc_eq_floor y h0]
  have hf0 : 0 ≤ ⌊y⌋ := Int.floor_nonneg.mpr h0
  rw [Int.tdiv_eq_ediv hf0 (by norm_num)]
  constructor
  · intro h
    have : ⌊y⌋ < 90 := by omega
    exact_mod_cast Int.floor_lt.mp this
  · intro h
    have : ⌊y⌋ < 90 := Int.floor_lt.mpr (by exact_mod_cast h)
    omega

/-- The body of `averageAzimuth` once the larger bearing is `x` and the
smaller is `y`. -/
theorem averageAzimuth_ordered (x y : ℚ) (hyx : y ≤ x)
    (hx0 : 0 ≤ x) (hx : x < 360) (hy0 : 0 ≤ y) (hy : y < 360) :
    averageAzimuth x y =
      if 270 ≤ x ∧ x < 360 ∧ 0 ≤ y ∧ y < 90 then wrapBisector x y else (x + y) / 2 := by
  unfold averageAzimuth wrapBisector
  rw [if_neg (not_lt.mpr hyx)]
  simp only [ge_iff_le, max_eq_left hyx, min_eq_right hyx]
  have hiff : ((ratTrunc x).tdiv 90 = 3 ∧ (ratTrunc y).tdiv 90 = 0) ↔
      (270 ≤ x ∧ x < 360 ∧ 0 ≤ y ∧ y < 90) := by
    rw [ratTrunc_div90_three x hx0 hx, ratTrunc_div90_zero y hy0]
    exact ⟨fun h => ⟨h.1, hx, hy0, h.2⟩, fun h => ⟨h.1, h.2.2.2⟩⟩
  have heq : x + (360 - x + y) / 2 = (x + y + 360) / 2 := by ring
  rw [heq, if_congr hiff rfl rfl]
  split_ifs <;> ring

/-- C6: for bearings in `[0,360)`, `averageAzimuth` is the bisector through
the 360°/0° boundary (reduced into `[0,360)`) exactly when the larger lies
in `[270,360)` and the smaller in `[0,90)`, and the plain arithmetic
midpoint otherwise.  `wrapBisector` is written from the spec's words. -/
theorem c6_averageAzimuth (a b : ℚ)
    (ha0 : 0 ≤ a) (ha : a < 360) (hb0 : 0 ≤ b) (hb : b < 360) :
    averageAzimuth a b =
      if 270 ≤ max a b ∧ max a b < 360 ∧ 0 ≤ min a b ∧ min a b < 90 then
        wrapBisector a b
      else (a + b) / 2 := by
  rcases le_total b a with hba | hab
  · rw [max_eq_left hba, min_eq_right hba]
    exact averageAzimuth_ordered a b hba ha0 ha hb0 hb
  · rw [max_eq_right hab, min_eq_left hab]
    have h1 : averageAzimuth a b = averageAzimuth b a := by
      unfold averageAzimuth
      rcases lt_or_eq_of_le hab with h | h
      · rw [if_pos h, if_neg (not_lt.mpr hab)]
      · subst h
        simp
    have h2 : wrapBisector a b = wrapBisector b a := by
      unfold wrapBisector
      rw [max_comm, min_comm]
    rw [h1, h2, averageAzimuth_ordered b a hab hb0 hb ha0 ha]
    have h3 : b + a = a + b := by ring
    rw [h3]

/-- C6 witness: the wrap-around pair `(350, 10)` satisfies the hypotheses,
and the theorem applies to it. -/
theorem c6_witness :
    (0 ≤ (350 : ℚ) ∧ (350 : ℚ) < 360 ∧ 0 ≤ (10 : ℚ) ∧ (10 : ℚ) < 360) ∧
    averageAzimuth 350 10 =
      if 270 ≤ max (350 : ℚ) 10 ∧ max (350 : ℚ) 10 < 360 ∧
          0 ≤ min (350 : ℚ) 10 ∧ min (350 : ℚ) 10 < 90 then
        wrapBisector 350 10
      else (350 + 10) / 2 :=
  ⟨⟨by decide, by decide, by decide, by decide⟩,
    c6_averageAzimuth 350 10 (by decide) (by decide) (by decide) (by decide)⟩

/-! ### C7: AddSurvey id assignment -/

theorem foldlMax_init_le :
    ∀ (l : List Station) (init : Int),
      init ≤ l.foldl (fun m s => if s.id > m then s.id else m) init
  | [], _ => le_refl _
  | s :: rest, init => by
    refine le_trans ?_ (foldlMax_init_le rest _)
    dsimp only
    split
    · omega
    · exact le_refl _

theorem foldlMax_mem_le (l : List Station) :
    ∀ (init : Int), ∀ s ∈ l, s.id ≤ l.foldl (fun m s => if s.id > m then s.id else m) init := by
  induction l with
  | nil => intro _ s hs; cases hs
  | cons a rest ih =>
    intro init s hs
    rcases List.mem_cons.mp hs with h | h
    · subst h
      refine le_trans ?_ (foldlMax_init_le rest _)
      dsimp only
      split
      · exact le_refl _
      · omega
    · exact ih _ s h

theorem foldlMax_mem_or (l : List Station) :
    ∀ (init : Int),
      l.foldl (fun m s => if s.id > m then s.id else m) init = init ∨
        l.foldl (fun m s => if s.id > m then s.id else m) init ∈ l.map (fun s => s.id) := by
  induction l with
  | nil => intro _; exact Or.inl rfl
  | cons a rest ih =>
    intro init
    rcases ih (if a.id > init then a.id else init) with h | h
    · rw [List.foldl_cons, h]
      split
      · exact Or.inr (by simp)
      · exact Or.inl rfl
    · exact Or.inr (List.mem_cons_of_mem _ (by simpa using h))

/-- Every id in the store is bounded by the `maxid` fold. -/
theorem maxIdFold_le (db : List Station) : ∀ s ∈ db, s.id ≤ maxIdFold db :=
  foldlMax_mem_le db 0

/-- On a non-empty store with non-negative ids the `maxid` fold is attained,
i.e. it really is the maximum id of the store. -/
theorem maxIdFold_mem (db : List Station) (hne : db ≠ []) (hpos : ∀ s ∈ db, 0 ≤ s.id) :
    maxIdFold db ∈ db.map (fun s => s.id) := by
  rcases foldlMax_mem_or db 0 with h | h
  · have h' : maxIdFold db = 0 := h
    cases db with
    | nil => exact absurd rfl hne
    | cons s0 rest =>
      have h1 : s0.id ≤ maxIdFold (s0 :: rest) := maxIdFold_le _ s0 (List.mem_cons_self _ _)
      have h2 : 0 ≤ s0.id := hpos s0 (List.mem_cons_self _ _)
      have h3 : s0.id = maxIdFold (s0 :: rest) := by omega
      exact h3 ▸ List.mem_map_of_mem _ (List.mem_cons_self _ _)
  · exact h

theorem assignIds_length : ∀ (l : List Station) (f m : Int),
    (assignIds f m l).length = l.length
  | [], _, _ => rfl
  | _ :: rest, f, m => by
    simp [assignIds, assignIds_length rest]

theorem assignIds_getD : ∀ (l : List Station) (f m : Int) (i : Nat), i < l.length →
    (assignIds f m l).getD i default =
      { l.getD i default with
          id := m + (i : Int) + 1,
          fromId := if i = 0 then f else m + (i : Int) }
  | [], _, _, i, hi => by simp at hi
  | s :: rest, f, m, 0, _ => by simp [assignIds]
  | s :: rest, f, m, i + 1, hi => by
    have hrec := assignIds_getD rest (m + 1) (m + 1) i (Nat.lt_of_succ_lt_succ hi)
    simp only [assignIds, List.getD_cons_succ]
    rw [hrec]
    have hid : m + 1 + (i : Int) + 1 = m + ((i + 1 : Nat) : Int) + 1 := by push_cast; ring
    have hfrom : (if i = 0 then m + 1 else m + 1 + (i : Int)) =
        (if i + 1 = 0 then f else m + ((i + 1 : Nat) : Int)) := by
      rcases Nat.eq_zero_or_pos i with h | h
      · subst h; simp
      · rw [if_neg (by omega), if_neg (by omega)]
        push_cast; ring
    rw [hid, hfrom]

theorem assignIds_id_bounds : ∀ (l : List Station) (f m : Int),
    ∀ s ∈ assignIds f m l, m < s.id ∧ s.id ≤ m + l.length
  | [], _, _ => by intro s hs; cases hs
  | a :: rest, f, m => by
    intro s hs
    rcases List.mem_cons.mp hs with h | h
    · subst h
      simp only [List.length_cons]
      constructor
      · omega
      · push_cast; omega
    · have := assignIds_id_bounds rest (m + 1) (m + 1) s h
      simp only [List.length_cons]
      push_cast
      omega

theorem assignIds_pairwise : ∀ (l : List Station) (f m : Int),
    (assignIds f m l).Pairwise (fun a b => a.id ≠ b.id)
  | [], _, _ => List.Pairwise.nil
  | a :: rest, f, m => by
    rw [assignIds]
    refine List.pairwise_cons.mpr ⟨?_, assignIds_pairwise rest (m + 1) (m + 1)⟩
    intro b hb
    have := (assignIds_id_bounds rest (m + 1) (m + 1) b hb).1
    dsimp only
    omega

theorem insertLoopAS_ok : ∀ (l db : List Station),
    (∀ s ∈ l, ∀ t ∈ db, t.id ≠ s.id) → l.Pairwise (fun a b => a.id ≠ b.id) →
    insertLoopAS db l = (db ++ l, none)
  | [], db, _, _ => by simp [insertLoopAS]
  | s :: rest, db, hfresh, hpair => by
    have hany : (db.any (fun t => t.id == s.id)) = false := by
      rw [List.any_eq_false]
      intro t ht
      simpa using hfresh s (List.mem_cons_self _ _) t ht
    rw [insertLoopAS, if_neg (by simp [hany])]
    rw [insertLoopAS_ok rest (db ++ [s]) ?_ (List.pairwise_cons.mp hpair).2]
    · simp
    · intro u hu t ht
      rcases List.mem_append.mp ht with h | h
      · exact hfresh u (List.mem_cons_of_mem _ hu) t h
      · have : t = s := by simpa using h
        subst this
        exact (List.pairwise_cons.mp hpair).1 u hu

/-- C7 counterexample: on a store whose only station carries the negative
id `-2` (such stores are buildable through `AddLocalSurvey`, which accepts
caller-assigned ids), the `maxid` fold starts from `0`, so `AddSurvey`
assigns the fresh id `1` — not one greater than the store's current maximum
id, which is `-2`, so the claim expects `-1`. -/
theorem c7_counterexample :
    addSurvey [{ id := -2, name := "N1" }] [{ name := "W1" }] "N1" =
      ([{ id := -2, name := "N1" }, { id := 1, name := "W1", fromId := -2 }], none) ∧
    (∀ s ∈ [({ id := -2, name := "N1" } : Station)], s.id ≤ -2) ∧
    ((-2 : Int) ∈ [({ id := -2, name := "N1" } : Station)].map (fun s => s.id)) ∧
    (1 : Int) ≠ -2 + 1 := by decide

/-- C7 (amended): when the survey is non-empty, the start name resolves (to
an existing station's id, or to the root sentinel `-1` for `"START"`) and
the store's ids are all non-negative — which holds for every store
`AddSurvey` itself populates, but not for arbitrary `AddLocalSurvey` input
(see the counterexample) — `AddSurvey` succeeds and appends stations
carrying consecutive fresh ids starting one above the store's current
maximum id (`maxIdFold`, which the conjuncts show is that maximum); the
first station's `fromId` is the resolved start id and each later station's
`fromId` is its predecessor's new id.  With zero stations `AddSurvey` fails
with the empty-survey error. -/
theorem c7_addSurvey (db srv : List Station) (start : String)
    (hsrv : srv ≠ [])
    (hres : start = "START" ∨
      ((getStationId db start).2 = true ∧ (getStationId db start).1 ≠ -1))
    (hpos : ∀ s ∈ db, 0 ≤ s.id) :
    ∃ fresh,
      addSurvey db srv start = (db ++ fresh, none) ∧
      (∀ s ∈ db, s.id ≤ maxIdFold db) ∧
      (db ≠ [] → maxIdFold db ∈ db.map (fun s => s.id)) ∧
      fresh.length = srv.length ∧
      (∀ i, i < srv.length →
        fresh.getD i default =
          { srv.getD i default with
            id := maxIdFold db + (i : Int) + 1,
            fromId := if i = 0 then (if start = "START" then -1 else (getStationId db start).1)
                      else maxIdFold db + (i : Int) }) ∧
      addSurvey db [] start = (db, some "can't add empty survey") := by
  refine ⟨assignIds (if start = "START" then -1 else (getStationId db start).1)
      (maxIdFold db) srv, ?_, maxIdFold_le db, fun h => maxIdFold_mem db h hpos,
      assignIds_length srv _ _, ?_, by simp [addSurvey]⟩
  · unfold addSurvey
    rw [if_neg (by simpa [List.length_eq_zero] using hsrv)]
    rw [if_neg ?hc]
    case hc =>
      rintro ⟨h1, h2⟩
      rcases hres with h | h
      · exact h1 h
      · rcases h2 with h2 | h2
        · rw [h.1] at h2; cases h2
        · exact h.2 h2
    exact insertLoopAS_ok _ db
      (fun s hs t ht =>
        ne_of_lt (lt_of_le_of_lt (maxIdFold_le db t ht)
          (assignIds_id_bounds srv _ (maxIdFold db) s hs).1))
      (assignIds_pairwise srv _ _)
  · intro i hi
    exact assignIds_getD srv _ (maxIdFold db) i hi

/-- C7 witness: adding a two-station survey to the one-station store
`[exAnchA]` with start name `"A1"`. -/
theorem c7_witness :
    (([⟨0, "W1", 0, "", 1, 0, 0, 0, 0, 0, ""⟩, ⟨0, "W2", 0, "", 1, 0, 0, 0, 0, 0, ""⟩] :
        List Station) ≠ [] ∧
      ("A1" = "START" ∨
        ((getStationId [exAnchA] "A1").2 = true ∧ (getStationId [exAnchA] "A1").1 ≠ -1)) ∧
      ∀ s ∈ [exAnchA], 0 ≤ s.id) ∧
    ∃ fresh,
      addSurvey [exAnchA]
          [⟨0, "W1", 0, "", 1, 0, 0, 0, 0, 0, ""⟩, ⟨0, "W2", 0, "", 1, 0, 0, 0, 0, 0, ""⟩]
          "A1" = ([exAnchA] ++ fresh, none) ∧
      (∀ s ∈ [exAnchA], s.id ≤ maxIdFold [exAnchA]) ∧
      (([exAnchA] : List Station) ≠ [] →
        maxIdFold [exAnchA] ∈ [exAnchA].map (fun s => s.id)) ∧
      fresh.length =
        ([⟨0, "W1", 0, "", 1, 0, 0, 0, 0, 0, ""⟩, ⟨0, "W2", 0, "", 1, 0, 0, 0, 0, 0, ""⟩] :
          List Station).length ∧
      (∀ i, i < ([⟨0, "W1", 0, "", 1, 0, 0, 0, 0, 0, ""⟩,
          ⟨0, "W2", 0, "", 1, 0, 0, 0, 0, 0, ""⟩] : List Station).length →
        fresh.getD i default =
          { ([⟨0, "W1", 0, "", 1, 0, 0, 0, 0, 0, ""⟩,
              ⟨0, "W2", 0, "", 1, 0, 0, 0, 0, 0, ""⟩] : List Station).getD i default with
            id := maxIdFold [exAnchA] + (i : Int) + 1,
            fromId := if i = 0 then
                (if "A1" = "START" then -1 else (getStationId [exAnchA] "A1").1)
              else maxIdFold [exAnchA] + (i : Int) }) ∧
      addSurvey [exAnchA] [] "A1" = ([exAnchA], some "can't add empty survey") :=
  ⟨⟨by decide, by decide, by decide⟩,
    c7_addSurvey [exAnchA]
      [⟨0, "W1", 0, "", 1, 0, 0, 0, 0, 0, ""⟩, ⟨0, "W2", 0, "", 1, 0, 0, 0, 0, 0, ""⟩]
      "A1" (by decide) (by decide) (by decide)⟩

/-! ### C1: the final reverse block of ParseSurvey -/

theorem renumber_length (pfx : String) : ∀ (i : Nat) (l : List Station),
    (renumber pfx i l).length = l.length
  | _, [] => rfl
  | i, _ :: rest => by simp [renumber, renumber_length pfx (i + 1) rest]

theorem renumber_getD (pfx : String) : ∀ (l : List Station) (i k : Nat), k < l.length →
    (renumber pfx i l).getD k default =
      { l.getD k default with
          name := pfx ++ toString (i + k + 1),
          azi := reverseAzimuth (l.getD k default).azi }
  | [], _, k, hk => by simp at hk
  | _ :: _, i, 0, _ => by simp [renumber]
  | _ :: rest, i, k + 1, hk => by
    simp only [renumber, List.getD_cons_succ]
    rw [renumber_getD pfx rest (i + 1) k (Nat.lt_of_succ_lt_succ hk)]
    have harith : i + 1 + k + 1 = i + (k + 1) + 1 := by omega
    rw [harith]

theorem getD_reverse (l : List Station) (i : Nat) (h : i < l.length) (d : Station) :
    l.reverse.getD i d = l.getD (l.length - 1 - i) d := by
  have h2 : l.length - 1 - i < l.length := by omega
  simp [List.getD, List.getElem?_reverse, h, List.getElem?_eq_getElem, h2]

/-- C1 (amended): when the line loop finishes without error and the
`reverse` directive was seen, `ParseSurvey` returns the accumulated stations
in reversed order; the sequential renumbering under the prefix AND the
replacement of each bearing by `reverseAzimuth` of the bearing parsed from
its line both happen only when a non-empty prefix is active — with the empty
prefix the stations are returned reversed but otherwise untouched. -/
theorem c1_reverse_final (text : List Char) (pfx : String) (st : PState)
    (hparse : parseLines pfx (splitOnChar '\n' text).enum {} = some (st, none))
    (hrev : st.reverse = true) :
    ∃ res, parseSurvey text pfx = some (res, st.start, none) ∧
      res.length = st.srv.length ∧
      ∀ i, i < st.srv.length →
        res.getD i default =
          (if pfx = "" then st.srv.getD (st.srv.length - 1 - i) default
           else
             { st.srv.getD (st.srv.length - 1 - i) default with
                 name := pfx ++ toString (i + 1),
                 azi := reverseAzimuth
                   ((st.srv.getD (st.srv.length - 1 - i) default).azi) }) := by
  refine ⟨finalizeSurvey pfx st, ?_, ?_, ?_⟩
  · unfold parseSurvey
    rw [hparse]
  · by_cases hp : pfx = "" <;>
      simp [finalizeSurvey, hrev, hp, renumber_length, List.length_reverse]
  · intro i hi
    have hi2 : i < st.srv.reverse.length := by simpa using hi
    by_cases hp : pfx = ""
    · rw [if_pos hp]
      simp only [finalizeSurvey, hrev, if_true, hp, ne_eq, not_true_eq_false, if_false]
      exact getD_reverse st.srv i hi default
    · rw [if_neg hp]
      simp only [finalizeSurvey, hrev, if_true, ne_eq, hp, not_false_eq_true, if_true]
      rw [renumber_getD pfx st.srv.reverse 0 i hi2, getD_reverse st.srv i hi default]
      have h0 : 0 + i + 1 = i + 1 := by omega
      rw [h0]

/-- The parser state reached by the line loop on the C1 witness input. -/
def c1State : PState :=
  ⟨[{ name := "A", type := REAL, azi := 5, len := 2, depth := 10, comment := "c" }],
    "START", "", true⟩

/-- C1 witness: the single-reading survey `"reverse\nA\t10\t5\t2\tc"` parsed
with the empty prefix. -/
theorem c1_witness :
    (parseLines "" (splitOnChar '\n' "reverse\nA\t10\t5\t2\tc".data).enum {} =
        some (c1State, none) ∧
      c1State.reverse = true) ∧
    ∃ res, parseSurvey "reverse\nA\t10\t5\t2\tc".data "" =
        some (res, c1State.start, none) ∧
      res.length = c1State.srv.length ∧
      ∀ i, i < c1State.srv.length →
        res.getD i default =
          (if ("" : String) = "" then
            c1State.srv.getD (c1State.srv.length - 1 - i) default
           else
             { c1State.srv.getD (c1State.srv.length - 1 - i) default with
                 name := "" ++ toString (i + 1),
                 azi := reverseAzimuth
                   ((c1State.srv.getD (c1State.srv.length - 1 - i) default).azi) }) :=
  ⟨⟨by decide, rfl⟩,
    c1_reverse_final "reverse\nA\t10\t5\t2\tc".data "" c1State (by decide) rfl⟩

/-! ### C4: point features of Marshal -/

theorem filter_name_singleton : ∀ (db : List Station),
    (db.map (fun s => s.name)).Nodup → ∀ s ∈ db,
      db.filter (fun t => t.name == s.name) = [s]
  | [], _, s, hs => absurd hs (List.not_mem_nil s)
  | a :: rest, hnd, s, hs => by
    rw [List.map_cons, List.nodup_cons] at hnd
    rcases List.mem_cons.mp hs with h | h
    · subst h
      rw [List.filter_cons_of_pos (by simp)]
      have hnil : rest.filter (fun t => t.name == s.name) = [] := by
        rw [List.filter_eq_nil_iff]
        intro t ht
        simp only [beq_iff_eq]
        exact fun he => hnd.1 (he ▸ List.mem_map_of_mem _ ht)
      rw [hnil]
    · have hne : (a.name == s.name) = false := by
        simp only [beq_eq_false_iff_ne, ne_eq]
        exact fun he => hnd.1 (he ▸ List.mem_map_of_mem _ h)
      rw [List.filter_cons_of_neg (by simp [hne])]
      exact filter_name_singleton rest hnd.2 s h

/-- With map-wide unique names, `nameToStation` maps each station's name to
that station. -/
theorem nameToStation_self (db : List Station)
    (hnd : (db.map (fun s => s.name)).Nodup) (s : Station) (hs : s ∈ db) :
    nameToStation db s.name = some s := by
  unfold nameToStation
  rw [filter_name_singleton db hnd s hs]
  rfl

theorem marshalPoints_all_points (db : List Station) :
    (marshalPoints db).filter Feature.isPoint = marshalPoints db := by
  rw [List.filter_eq_self]
  intro f hf
  obtain ⟨n, _, hn⟩ := List.mem_map.mp hf
  subst hn
  cases nameToStation db n <;> rfl

theorem marshalLines_no_points (db : List Station) :
    (marshalLines db).filter Feature.isPoint = [] := by
  rw [List.filter_eq_nil_iff]
  intro f hf
  obtain ⟨s, _, hn⟩ := List.mem_map.mp hf
  subst hn
  simp [Feature.isPoint]

/-- The point features of `Marshal` are exactly the `marshalPoints` loop's
output. -/
theorem marshal_filter_points (db : List Station) :
    (marshal db).filter Feature.isPoint = marshalPoints db := by
  unfold marshal
  rw [List.filter_append, marshalPoints_all_points, marshalLines_no_points,
    List.append_nil]

/-- C4 (amended): when the store's station names are pairwise distinct, the
`FeatureCollection` returned by `Marshal` contains exactly one `Point`
feature per station — the point features are a permutation (reordered by the
name sort) of one feature per station carrying that station's own
longitude/latitude, name, depth and comment.  When several stations share
the sentinel name `"START"`, the features all carry the data of the single
station that won the `nameToStation` map entry (see the counterexample), so
the per-station claim holds only under name uniqueness. -/
theorem c4_marshal_points (db : List Station)
    (hnames : (db.map (fun s => s.name)).Nodup) :
    ((marshal db).filter Feature.isPoint).Perm
      (db.map (fun s => Feature.point s.lon s.lat s.name s.depth s.comment)) := by
  rw [marshal_filter_points]
  unfold marshalPoints
  refine ((sortBy_perm byNameLess (db.map (fun s => s.name))).map _).trans ?_
  rw [List.map_map]
  rw [List.map_congr_left ?_]
  intro s hs
  simp only [Function.comp_apply]
  rw [nameToStation_self db hnames s hs]

/-- C4 witness: a store of two anchors with distinct names. -/
theorem c4_witness :
    (([exAnchA, exAnchB] : List Station).map (fun s => s.name)).Nodup ∧
    ((marshal [exAnchA, exAnchB]).filter Feature.isPoint).Perm
      (([exAnchA, exAnchB] : List Station).map
        (fun s => Feature.point s.lon s.lat s.name s.depth s.comment)) :=
  ⟨by decide, c4_marshal_points [exAnchA, exAnchB] (by decide)⟩

/-! ### C3: sortedness and uniqueness of the sorted name list -/

theorem insertB_sorted (lt : String → String → Bool) (x : String) :
    ∀ (l : List String),
      (∀ b ∈ l, x ≠ b → lt x b = true ∨ lt b x = true) →
      (∀ b ∈ l, ∀ c ∈ l, lt x b = true → lt b c = true → lt x c = true) →
      x ∉ l →
      l.Pairwise (fun a b => lt a b = true) →
      (insertB lt x l).Pairwise (fun a b => lt a b = true)
  | [], _, _, _, _ => List.pairwise_cons.mpr ⟨fun b hb => absurd hb (List.not_mem_nil b),
      List.Pairwise.nil⟩
  | y :: l2, hconn, htr, hmem, hsort => by
    rw [insertB]
    split
    · next hxy =>
      refine List.pairwise_cons.mpr ⟨?_, hsort⟩
      intro w hw
      rcases List.mem_cons.mp hw with h | h
      · exact h ▸ hxy
      · exact htr y (List.mem_cons_self _ _) w (List.mem_cons_of_mem _ h) hxy
          ((List.pairwise_cons.mp hsort).1 w h)
    · next hxy =>
      refine List.pairwise_cons.mpr ⟨?_, ?_⟩
      · intro w hw
        rcases List.mem_cons.mp ((insertB_perm lt x l2).mem_iff.mp hw) with h | h
        · subst h
          rcases hconn y (List.mem_cons_self _ _) (fun he => hmem (he ▸ List.mem_cons_self _ _))
            with h | h
          · exact absurd h hxy
          · exact h
        · exact (List.pairwise_cons.mp hsort).1 w h
      · exact insertB_sorted lt x l2
          (fun b hb => hconn b (List.mem_cons_of_mem _ hb))
          (fun b hb c hc => htr b (List.mem_cons_of_mem _ hb) c (List.mem_cons_of_mem _ hc))
          (fun h => hmem (List.mem_cons_of_mem _ h))
          (List.pairwise_cons.mp hsort).2

theorem sortBy_sorted (lt : String → String → Bool) :
    ∀ (l : List String),
      (∀ a ∈ l, ∀ b ∈ l, a ≠ b → lt a b = true ∨ lt b a = true) →
      (∀ a ∈ l, ∀ b ∈ l, ∀ c ∈ l, lt a b = true → lt b c = true → lt a c = true) →
      l.Nodup →
      (sortBy lt l).Pairwise (fun a b => lt a b = true)
  | [], _, _, _ => List.Pairwise.nil
  | x :: l2, hconn, htr, hnd => by
    rw [sortBy]
    have hmem : ∀ b, b ∈ sortBy lt l2 ↔ b ∈ l2 := fun b => (sortBy_perm lt l2).mem_iff
    refine insertB_sorted lt x (sortBy lt l2) ?_ ?_ ?_ ?_
    · intro b hb
      exact hconn x (List.mem_cons_self _ _) b (List.mem_cons_of_mem _ ((hmem b).mp hb))
    · intro b hb c hc
      exact htr x (List.mem_cons_self _ _) b (List.mem_cons_of_mem _ ((hmem b).mp hb))
        c (List.mem_cons_of_mem _ ((hmem c).mp hc))
    · exact fun h => (List.nodup_cons.mp hnd).1 ((hmem x).mp h)
    · exact sortBy_sorted lt l2
        (fun a ha b hb => hconn a (List.mem_cons_of_mem _ ha) b (List.mem_cons_of_mem _ hb))
        (fun a ha b hb c hc => htr a (List.mem_cons_of_mem _ ha) b (List.mem_cons_of_mem _ hb)
          c (List.mem_cons_of_mem _ hc))
        (List.nodup_cons.mp hnd).2

/-- Two lists sorted by a comparator that is asymmetric on their elements
and permutations of each other are equal. -/
theorem sorted_perm_eq (lt : String → String → Bool) :
    ∀ (l1 l2 : List String), l1.Perm l2 →
      l1.Pairwise (fun a b => lt a b = true) →
      l2.Pairwise (fun a b => lt a b = true) →
      (∀ a ∈ l1, ∀ b ∈ l1, ¬(lt a b = true ∧ lt b a = true)) →
      l1 = l2
  | [], _, hp, _, _, _ => (hp.symm.eq_nil).symm
  | a :: t1, l2, hp, hs1, hs2, hasym => by
    cases l2 with
    | nil => exact hp.eq_nil
    | cons b t2 =>
      by_cases hab : a = b
      · subst hab
        rw [sorted_perm_eq lt t1 t2 hp.cons_inv (List.pairwise_cons.mp hs1).2
          (List.pairwise_cons.mp hs2).2
          (fun x hx y hy => hasym x (List.mem_cons_of_mem _ hx) y (List.mem_cons_of_mem _ hy))]
      · have ha2 : a ∈ t2 := by
          rcases List.mem_cons.mp (hp.mem_iff.mp (List.mem_cons_self a t1)) with h | h
          · exact absurd h hab
          · exact h
        have hb1 : b ∈ t1 := by
          rcases List.mem_cons.mp (hp.mem_iff.mpr (List.mem_cons_self b t2)) with h | h
          · exact absurd h.symm hab
          · exact h
        have h1 : lt a b = true := (List.pairwise_cons.mp hs1).1 b hb1
        have h2 : lt b a = true := (List.pairwise_cons.mp hs2).1 a ha2
        exact absurd ⟨h1, h2⟩
          (hasym a (List.mem_cons_self _ _) b (List.mem_cons_of_mem _ hb1))

theorem filter_name_len_le_one : ∀ (db : List Station),
    (db.map (fun s => s.name)).Nodup → ∀ n : String,
      (db.filter (fun t => t.name == n)).length ≤ 1
  | [], _, _ => by simp
  | a :: rest, hnd, n => by
    rw [List.map_cons, List.nodup_cons] at hnd
    by_cases h : (a.name == n) = true
    · rw [List.filter_cons_of_pos (by exact h)]
      have hnil : rest.filter (fun t => t.name == n) = [] := by
        rw [List.filter_eq_nil_iff]
        intro t ht
        simp only [beq_iff_eq]
        intro he
        exact hnd.1 (((eq_of_beq h).trans he.symm) ▸ List.mem_map_of_mem _ ht)
      rw [hnil]
      exact le_refl _
    · rw [List.filter_cons_of_neg (by simpa using h)]
      exact filter_name_len_le_one rest hnd.2 n

theorem perm_eq_of_len_le_one (l1 l2 : List Station) (hp : l1.Perm l2)
    (hl : l1.length ≤ 1) : l1 = l2 := by
  cases l1 with
  | nil => exact (hp.symm.eq_nil).symm
  | cons a t =>
    cases t with
    | nil => exact List.singleton_perm.mp hp
    | cons b t2 => simp at hl

/-- `nameToStation` is independent of the iteration order when names are
unique. -/
theorem nameToStation_perm (db1 db2 : List Station) (hp : db1.Perm db2)
    (hnd : (db1.map (fun s => s.name)).Nodup) (n : String) :
    nameToStation db1 n = nameToStation db2 n := by
  unfold nameToStation
  rw [perm_eq_of_len_le_one _ _ (hp.filter (fun t => t.name == n))
    (filter_name_len_le_one db1 hnd n)]

/-- C3 (amended): `Marshal` is deterministic given the map iteration order;
across different iteration orders only the point-feature prefix is stable,
and only under side conditions: if the station names are pairwise distinct
and `byName.Less` strictly totally orders them (connected, asymmetric and
transitive on those names), then any two calls — modelled by two
permutations of the store list — produce the identical point-feature
sequence.  The per-anchor line features and the segments inside each
anchor's collection follow the iteration order and may differ between calls
(see the counterexample). -/
theorem c3_points_iteration_independent (db1 db2 : List Station)
    (hperm : db1.Perm db2)
    (hnd : (db1.map (fun s => s.name)).Nodup)
    (hconn : ∀ a ∈ db1.map (fun s => s.name), ∀ b ∈ db1.map (fun s => s.name),
      a ≠ b → byNameLess a b = true ∨ byNameLess b a = true)
    (hasym : ∀ a ∈ db1.map (fun s => s.name), ∀ b ∈ db1.map (fun s => s.name),
      ¬(byNameLess a b = true ∧ byNameLess b a = true))
    (htr : ∀ a ∈ db1.map (fun s => s.name), ∀ b ∈ db1.map (fun s => s.name),
      ∀ c ∈ db1.map (fun s => s.name),
      byNameLess a b = true → byNameLess b c = true → byNameLess a c = true) :
    (marshal db1).filter Feature.isPoint = (marshal db2).filter Feature.isPoint := by
  rw [marshal_filter_points, marshal_filter_points]
  unfold marshalPoints
  have hnames : (db1.map (fun s => s.name)).Perm (db2.map (fun s => s.name)) := hperm.map _
  have hnd2 : (db2.map (fun s => s.name)).Nodup := hnames.nodup_iff.mp hnd
  have hsorteq : sortBy byNameLess (db1.map (fun s => s.name)) =
      sortBy byNameLess (db2.map (fun s => s.name)) := by
    refine sorted_perm_eq byNameLess _ _ ?_ ?_ ?_ ?_
    · exact (sortBy_perm _ _).trans (hnames.trans (sortBy_perm _ _).symm)
    · exact sortBy_sorted byNameLess _ hconn htr hnd
    · refine sortBy_sorted byNameLess _ ?_ ?_ hnd2
      · intro a ha b hb
        exact hconn a (hnames.mem_iff.mpr ha) b (hnames.mem_iff.mpr hb)
      · intro a ha b hb c hc
        exact htr a (hnames.mem_iff.mpr ha) b (hnames.mem_iff.mpr hb)
          c (hnames.mem_iff.mpr hc)
    · intro a ha b hb
      exact hasym a ((sortBy_perm _ _).mem_iff.mp ha) b ((sortBy_perm _ _).mem_iff.mp hb)
  rw [hsorteq]
  refine List.map_congr_left ?_
  intro n _
  rw [nameToStation_perm db1 db2 hperm hnd n]

/-- C3 witness: the two iteration orders of the two-anchor store. -/
theorem c3_witness :
    (List.Perm [exAnchA, exAnchB] [exAnchB, exAnchA] ∧
      (([exAnchA, exAnchB] : List Station).map (fun s => s.name)).Nodup ∧
      (∀ a ∈ ([exAnchA, exAnchB] : List Station).map (fun s => s.name),
        ∀ b ∈ ([exAnchA, exAnchB] : List Station).map (fun s => s.name),
        a ≠ b → byNameLess a b = true ∨ byNameLess b a = true) ∧
      (∀ a ∈ ([exAnchA, exAnchB] : List Station).map (fun s => s.name),
        ∀ b ∈ ([exAnchA, exAnchB] : List Station).map (fun s => s.name),
        ¬(byNameLess a b = true ∧ byNameLess b a = true)) ∧
      (∀ a ∈ ([exAnchA, exAnchB] : List Station).map (fun s => s.name),
        ∀ b ∈ ([exAnchA, exAnchB] : List Station).map (fun s => s.name),
        ∀ c ∈ ([exAnchA, exAnchB] : List Station).map (fun s => s.name),
        byNameLess a b = true → byNameLess b c = true → byNameLess a c = true)) ∧
    (marshal [exAnchA, exAnchB]).filter Feature.isPoint =
      (marshal [exAnchB, exAnchA]).filter Feature.isPoint :=
  ⟨⟨by decide, by decide, by decide, by decide, by decide⟩,
    c3_points_iteration_independent [exAnchA, exAnchB] [exAnchB, exAnchA]
      (by decide) (by decide) (by decide) (by decide) (by decide)⟩

/-! ### C5: idempotence of PropagateLocation -/

theorem optFoldl_none {α β : Type} (f : Option α → β → Option α)
    (hf : ∀ b, f none b = none) : ∀ l : List β, l.foldl f none = none
  | [] => rfl
  | b :: l => by rw [List.foldl_cons, hf b, optFoldl_none f hf l]

/-- A fold of fallible walks that all return the store unchanged returns the
store unchanged. -/
theorem optFold_fix (w : List Station → Int → Option (List Station)) :
    ∀ (l : List Int) (db : List Station),
      (∀ aid ∈ l, w db aid = some db) →
      l.foldl (fun acc aid => match acc with
        | none => none
        | some cur => w cur aid) (some db) = some db
  | [], _, _ => rfl
  | aid :: l, db, h => by
    rw [List.foldl_cons]
    have h1 : (match (some db : Option (List Station)) with
        | none => none
        | some cur => w cur aid) = some db := h aid (List.mem_cons_self _ _)
    rw [h1]
    exact optFold_fix w l db (fun a ha => h a (List.mem_cons_of_mem _ ha))

/-- Unfolding of the accumulator of `reachIds`: everything a successful fold
accumulates is in the result, and each listed id contributes itself and its
recursive reach set. -/
theorem optFold_reach_mem (g : Int → Option (List Int)) :
    ∀ (l : List Int) (acc0 r : List Int),
      l.foldl (fun acc cid => match acc with
        | none => none
        | some l2 => match g cid with
          | none => none
          | some l3 => some (l2 ++ cid :: l3)) (some acc0) = some r →
      (∀ x ∈ acc0, x ∈ r) ∧
      ∀ cid ∈ l, cid ∈ r ∧ ∃ r2, g cid = some r2 ∧ ∀ x ∈ r2, x ∈ r
  | [], acc0, r, h => by
    have : acc0 = r := by simpa using h
    subst this
    exact ⟨fun x hx => hx, fun cid hcid => absurd hcid (List.not_mem_nil cid)⟩
  | cid :: l, acc0, r, h => by
    rw [List.foldl_cons] at h
    cases hg : g cid with
    | none =>
      rw [show (match (some acc0 : Option (List Int)) with
          | none => none
          | some l2 => match g cid with
            | none => none
            | some l3 => some (l2 ++ cid :: l3)) = (none : Option (List Int)) by
        rw [hg]] at h
      rw [optFoldl_none _ (fun b => rfl) l] at h
      cases h
    | some r2 =>
      rw [show (match (some acc0 : Option (List Int)) with
          | none => none
          | some l2 => match g cid with
            | none => none
            | some l3 => some (l2 ++ cid :: l3)) = some (acc0 ++ cid :: r2) by
        rw [hg]] at h
      obtain ⟨hacc, hrest⟩ := optFold_reach_mem g l (acc0 ++ cid :: r2) r h
      refine ⟨fun x hx => hacc x (List.mem_append_left _ hx), ?_⟩
      intro c hc
      rcases List.mem_cons.mp hc with hh | hh
      · subst hh
        exact ⟨hacc c (List.mem_append_right _ (List.mem_cons_self _ _)), r2, hg,
          fun x hx => hacc x (List.mem_append_right _ (List.mem_cons_of_mem _ hx))⟩
      · exact hrest c hh

/-- The accumulator of a successful `allReachIds` fold ends up in the
result. -/
theorem optFold_allreach_acc (g : Int → Option (List Int)) :
    ∀ (l : List Int) (acc0 r : List Int),
      l.foldl (fun acc aid => match acc with
        | none => none
        | some l2 => match g aid with
          | none => none
          | some l3 => some (l2 ++ l3)) (some acc0) = some r →
      ∀ x ∈ acc0, x ∈ r
  | [], acc0, r, h => by
    have : acc0 = r := by simpa using h
    subst this
    exact fun x hx => hx
  | aid :: l, acc0, r, h => by
    rw [List.foldl_cons] at h
    cases hg : g aid with
    | none =>
      rw [show (match (some acc0 : Option (List Int)) with
          | none => none
          | some l2 => match g aid with
            | none => none
            | some l3 => some (l2 ++ l3)) = (none : Option (List Int)) by rw [hg]] at h
      rw [optFoldl_none _ (fun b => rfl) l] at h
      cases h
    | some r2 =>
      rw [show (match (some acc0 : Option (List Int)) with
          | none => none
          | some l2 => match g aid with
            | none => none
            | some l3 => some (l2 ++ l3)) = some (acc0 ++ r2) by rw [hg]] at h
      exact fun x hx => optFold_allreach_acc g l (acc0 ++ r2) r h x (List.mem_append_left _ hx)

/-- Same unfolding for the per-anchor union built by `allReachIds`. -/
theorem optFold_allreach_mem (g : Int → Option (List Int)) :
    ∀ (l : List Int) (acc0 r : List Int),
      l.foldl (fun acc aid => match acc with
        | none => none
        | some l2 => match g aid with
          | none => none
          | some l3 => some (l2 ++ l3)) (some acc0) = some r →
      ∀ aid ∈ l, ∃ r2, g aid = some r2 ∧ ∀ x ∈ r2, x ∈ r
  | [], _, _, _ => fun aid haid => absurd haid (List.not_mem_nil aid)
  | aid :: l, acc0, r, h => by
    rw [List.foldl_cons] at h
    cases hg : g aid with
    | none =>
      rw [show (match (some acc0 : Option (List Int)) with
          | none => none
          | some l2 => match g aid with
            | none => none
            | some l3 => some (l2 ++ l3)) = (none : Option (List Int)) by rw [hg]] at h
      rw [optFoldl_none _ (fun b => rfl) l] at h
      cases h
    | some r2 =>
      rw [show (match (some acc0 : Option (List Int)) with
          | none => none
          | some l2 => match g aid with
            | none => none
            | some l3 => some (l2 ++ l3)) = some (acc0 ++ r2) by rw [hg]] at h
      intro a ha
      rcases List.mem_cons.mp ha with hh | hh
      · subst hh
        -- the accumulated acc0 ++ r2 ends up inside r
        have hacc : ∀ x ∈ acc0 ++ r2, x ∈ r := by
          intro x hx
          -- reuse the reach lemma shape: prove by a small induction inline
          exact optFold_allreach_acc g l (acc0 ++ r2) r h x hx
        exact ⟨r2, hg, fun x hx => hacc x (List.mem_append_right _ hx)⟩
      · exact optFold_allreach_mem g l (acc0 ++ r2) r h a hh

/-- `updateStation` leaves the store unchanged at a child whose station does
not carry the unset `(0,0)` coordinate. -/
theorem stepUpdate_noop (adv : ℚ → ℚ → ℚ → ℚ → ℚ × ℚ) (db : List Station) (pid cid : Int)
    (r : List Int) (hcid : cid ∈ r)
    (hnz : ∀ c ∈ db, c.id ∈ r → ¬(c.lon = 0 ∧ c.lat = 0)) :
    stepUpdate adv db pid cid = db := by
  unfold stepUpdate
  cases hc : db.find? (fun t => t.id == cid) with
  | none => rfl
  | some c =>
    cases hf : db.find? (fun t => t.id == pid) with
    | none => rfl
    | some f =>
      have hcmem : c ∈ db := List.mem_of_find?_eq_some hc
      have hcid2 : c.id = cid := by
        have := List.find?_some hc
        simpa using this
      have hnc := hnz c hcmem (hcid2 ▸ hcid)
      have hfalse : ¬((c.lon == 0 && c.lat == 0) = true) := by
        simp only [Bool.and_eq_true, beq_iff_eq]
        exact hnc
      simp only []
      rw [if_neg hfalse]

/-- The walk of `PropagateLocation` is the identity on a store none of whose
reached stations carries the unset `(0,0)` coordinate. -/
theorem walk_noop (adv : ℚ → ℚ → ℚ → ℚ → ℚ × ℚ) :
    ∀ (fuel : Nat) (db : List Station) (pid : Int) (r : List Int),
      reachIds fuel db pid = some r →
      (∀ c ∈ db, c.id ∈ r → ¬(c.lon = 0 ∧ c.lat = 0)) →
      walkP adv fuel db pid = some db
  | 0, db, pid, r, hr, _ => by simp [reachIds] at hr
  | fuel + 1, db, pid, r, hr, hnz => by
    rw [reachIds] at hr
    have hmem := optFold_reach_mem (reachIds fuel db) (childIds db pid) [] r hr
    rw [walkP]
    refine optFold_fix (fun cur cid => walkP adv fuel (stepUpdate adv cur pid cid) cid)
      (childIds db pid) db ?_
    intro cid hcid
    obtain ⟨hcidr, r2, hr2, hsub⟩ := hmem.2 cid hcid
    show walkP adv fuel (stepUpdate adv db pid cid) cid = some db
    rw [stepUpdate_noop adv db pid cid r hcidr hnz]
    exact walk_noop adv fuel db cid r2 hr2 (fun c hc hcr2 => hnz c hc (hsub _ hcr2))

/-- C5: `PropagateLocation` is idempotent when no station it computes ends
at the unset sentinel `(0,0)`.  `db'` is the store after one call; `r` is
the set of station ids the walks visit (the computed stations); the
hypothesis says no station of `db'` that the walks visit carries `(0,0)`.
Then a second call returns `db'` unchanged — in particular every station
whose coordinate is already non-zero is left untouched by the second call.
`adv` abstracts the float geodesic step `advLonLat`, so the statement holds
for the real geodesic function; `fuel` bounds the recursion depth (the Go
walk does not terminate on cyclic stores). -/
theorem c5_propagate_idempotent (adv : ℚ → ℚ → ℚ → ℚ → ℚ × ℚ) (fuel : Nat)
    (db db' : List Station) (r : List Int)
    (h1 : propagateLocation adv fuel db = some db')
    (h2 : allReachIds fuel db' = some r)
    (h3 : ∀ c ∈ db', c.id ∈ r → ¬(c.lon = 0 ∧ c.lat = 0)) :
    propagateLocation adv fuel db' = some db' := by
  unfold allReachIds at h2
  have hmm := optFold_allreach_mem (reachIds fuel db') (anchorIds db') [] r h2
  unfold propagateLocation
  refine optFold_fix (walkP adv fuel) (anchorIds db') db' ?_
  intro aid haid
  obtain ⟨r2, hr2, hsub⟩ := hmm aid haid
  exact walk_noop adv fuel db' aid r2 hr2 (fun c hc hcr2 => h3 c hc (hsub _ hcr2))

/-- The store used by the C5 witness: one anchor at `(1,1)` and one derived
station, propagated with the coordinate-projection function in place of the
geodesic step. -/
def c5Db : List Station :=
  [{ id := 1, name := "START", fromId := -1, type := START, lon := 1, lat := 1 },
   { id := 2, name := "X1", fromId := 1, type := REAL, azi := 10, len := 20 }]

def c5Db' : List Station :=
  [{ id := 1, name := "START", fromId := -1, type := START, lon := 1, lat := 1 },
   { id := 2, name := "X1", fromId := 1, type := REAL, azi := 10, len := 20,
     lon := 10, lat := 20 }]

/-- C5 witness: propagating `c5Db` once gives `c5Db'`; the walks reach only
station 2, whose computed coordinate is not `(0,0)`, so the second call
returns `c5Db'` unchanged. -/
theorem c5_witness :
    (propagateLocation (fun _ _ c d => (c, d)) 3 c5Db = some c5Db' ∧
      allReachIds 3 c5Db' = some [2] ∧
      ∀ c ∈ c5Db', c.id ∈ ([2] : List Int) → ¬(c.lon = 0 ∧ c.lat = 0)) ∧
    propagateLocation (fun _ _ c d => (c, d)) 3 c5Db' = some c5Db' :=
  ⟨⟨by decide, by decide, by decide⟩,
    c5_propagate_idempotent (fun _ _ c d => (c, d)) 3 c5Db c5Db' [2]
      (by decide) (by decide) (by decide)⟩

end Cavemap
